import Mathlib

/-!
Verification development for the docChat asynchronous ingestion pipeline.

The definitions below are a shallow embedding of the repository's server and
worker code:

* the documents collection and its Mongo-style conditional updates
  (server/index.js, server/routes/documents.js, worker.js);
* the ingestion worker handleFileReady with native extraction, the OCR
  fallback DPI loop, and chunk plus index (worker.js — src/unnamed/part_015);
* the hard-delete worker handleHardDelete (src/unnamed/part_015);
* the status relay handlers for queue progress and completed events
  (src/server/index.js);
* the reconciliation pass and collectionHasAnyPoints
  (src/unnamed/part_006, server/routes/documents.js).

External I/O (PDF extraction, rasterization plus Tesseract, the text
splitter, the embedding service, Qdrant queries) is passed in as explicit
function arguments or as already-resolved result values, mirroring exactly
how the JavaScript consumes those services.  OCR confidences, floats in the
source, are modelled as rationals: every claim about them concerns only
comparisons and means, never rounding.
-/

namespace DocChat

/-- Document lifecycle status values as stored in the documents collection. -/
inductive Status where
  | queued
  | processing
  | ready
  | error
  | deleting
  | deleted
deriving DecidableEq, Repr

/-- A row of the documents collection.  Field names follow the JavaScript
objects; the Mongo ObjectId is modelled as a Nat key. -/
structure Document where
  id : Nat
  ownerId : String
  name : String := ""
  status : Status
  pages : Option Nat := none
  error : Option String := none
  collection : Option String := none
  createdAt : Option Nat := none
  updatedAt : Option Nat := none
  deletedAt : Option Nat := none
  gridId : Nat := 0
  progress : Option Nat := none
  stage : Option String := none
deriving DecidableEq, Repr

/-- The documents collection, as the list of its rows. -/
abbrev DocStore := List Document

/-- Mongo findOne with filter on id only, as in worker.js
col.findOne(concerning only the id). -/
def findById : DocStore → Nat → Option Document
  | [], _ => none
  | d :: rest, i => if d.id = i then some d else findById rest i

/-- Mongo findOne with filter on id and ownerId, as used by the routes and the
hard-delete worker. -/
def findByIdOwner : DocStore → Nat → String → Option Document
  | [], _, _ => none
  | d :: rest, i, o => if d.id = i ∧ d.ownerId = o then some d else findByIdOwner rest i o

/-- Mongo updateOne with filter on id only: rewrites the first row whose id
matches (worker.js status writes). -/
def updateById : DocStore → Nat → (Document → Document) → DocStore
  | [], _, _ => []
  | d :: rest, i, f => if d.id = i then f d :: rest else d :: updateById rest i f

/-- Mongo updateOne with filter on id and ownerId: rewrites the first row
matching both (server/index.js and routes). -/
def updateByIdOwner : DocStore → Nat → String → (Document → Document) → DocStore
  | [], _, _, _ => []
  | d :: rest, i, o, f =>
    if d.id = i ∧ d.ownerId = o then f d :: rest else d :: updateByIdOwner rest i o f

/-- Mongo deleteOne with filter on id and ownerId: removes the first row
matching both (hard-delete worker). -/
def deleteByIdOwner : DocStore → Nat → String → DocStore
  | [], _, _ => []
  | d :: rest, i, o =>
    if d.id = i ∧ d.ownerId = o then rest else d :: deleteByIdOwner rest i o

/-! ### Ingestion worker: extraction, OCR decision, OCR pass selection
(worker.js — src/unnamed/part_015) -/

/-- One page produced by the PDFLoader native extraction: its text content
and the page number found in the loader metadata. -/
structure NativePage where
  content : String
  page : Option Nat
deriving DecidableEq, Repr

/-- One in-memory page document carried through the pipeline: text plus the
metadata object attached in worker.js (page, docId, name, ownerId, ocr). -/
structure PageDoc where
  pageContent : String
  page : Option Nat
  docId : Nat
  name : String
  ownerId : String
  ocr : Bool
deriving DecidableEq, Repr

/-- Sum of page text lengths, as the reduce over pageContent.length used both
by extractWithPdfLoader and by ocrImagesToDocuments. -/
def docsTextLen (l : List PageDoc) : Nat :=
  l.foldl (fun s d => s + d.pageContent.length) 0

/-- The totalTextLen computed by extractWithPdfLoader: sum of the native page
content lengths. -/
def nativeTotalTextLen (pages : List NativePage) : Nat :=
  pages.foldl (fun s p => s + p.content.length) 0

/-- The baseDocs array built from native extraction in handleFileReady: one
PageDoc per native page with ocr set to false. -/
def nativeBaseDocs (docId : Nat) (recName recOwner : String)
    (pages : List NativePage) : List PageDoc :=
  pages.map fun c =>
    { pageContent := c.content, page := c.page, docId := docId,
      name := recName, ownerId := recOwner, ocr := false }

/-- JavaScript String.prototype.trim: strip leading and trailing whitespace.
Written over the character list so that it evaluates inside the kernel. -/
def jsTrim (s : String) : String :=
  String.mk (((s.data.dropWhile Char.isWhitespace).reverse.dropWhile Char.isWhitespace).reverse)

/-- OCR configuration read from the environment by worker.js: OCR_ENABLED,
EFFECTIVE_DPIS and OCR_TEXT_MIN_THRESHOLD. -/
structure OcrCfg where
  enabled : Bool
  dpis : List Nat
  threshold : Nat
deriving DecidableEq, Repr

/-- The shouldOCR decision of handleFileReady: OCR is enabled AND either the
native totalTextLen is below the threshold or every base page trims to the
empty string. -/
def shouldOCRB (cfg : OcrCfg) (totalTextLen : Nat) (baseDocs : List PageDoc) : Bool :=
  cfg.enabled &&
    (decide (totalTextLen < cfg.threshold) || baseDocs.all fun d => jsTrim d.pageContent = "")

/-- The outcome of Tesseract on one rasterized page: the raw recognized text
and the confidence, when the engine reports a finite one. -/
structure OcrPage where
  text : String
  conf : Option ℚ
deriving DecidableEq, Repr

/-- The value returned by ocrImagesToDocuments for one DPI pass: page
documents, total trimmed text length, and mean confidence when any page
reported one. -/
structure OcrPass where
  docs : List PageDoc
  textLen : Nat
  meanConf : Option ℚ
deriving DecidableEq, Repr

/-- ocrImagesToDocuments from worker.js: one PageDoc per image with the
trimmed text and ocr set to true, the summed text length, and the mean of
the reported confidences (null when none reported). -/
def ocrImagesToDocuments (pages : List OcrPage) (docId : Nat)
    (name ownerId : String) : OcrPass :=
  let docs := pages.enum.map fun ip =>
    { pageContent := jsTrim ip.2.text, page := some (ip.1 + 1), docId := docId,
      name := name, ownerId := ownerId, ocr := true }
  let confCount := pages.countP fun p => p.conf.isSome
  let sumConf := pages.foldl (fun s p => s + p.conf.getD 0) (0 : ℚ)
  { docs := docs
    textLen := docsTextLen docs
    meanConf := if confCount ≠ 0 then some (sumConf / confCount) else none }

/-- The best record threaded through the OCR DPI loop of handleFileReady.
textLen starts at -1 and meanConf at -1, exactly as in the source. -/
structure OcrBest where
  docs : Option (List PageDoc)
  textLen : Int
  meanConf : ℚ
  dpi : Option Nat
  pages : Nat
deriving DecidableEq, Repr

/-- The initial best value of the OCR DPI loop. -/
def ocrBestInit : OcrBest :=
  { docs := none, textLen := -1, meanConf := -1, dpi := none, pages := 0 }

/-- The JavaScript expression pass.meanConf or zero: a missing mean
confidence is treated as zero in comparisons and when stored. -/
def confOr0 : Option ℚ → ℚ
  | none => 0
  | some q => q

/-- One iteration of the OCR DPI loop comparison: a pass replaces the best
when its textLen is strictly greater, or equal with strictly greater mean
confidence. -/
def ocrConsider (best : OcrBest) (dpi : Nat) (pass : OcrPass) (numPages : Nat) : OcrBest :=
  let better :=
    decide ((pass.textLen : Int) > best.textLen) ||
      (decide ((pass.textLen : Int) = best.textLen) &&
        decide (confOr0 pass.meanConf > best.meanConf))
  if better then
    { docs := some pass.docs, textLen := (pass.textLen : Int),
      meanConf := confOr0 pass.meanConf, dpi := some dpi, pages := numPages }
  else best

/-- One iteration of the OCR DPI loop: rasterize at the DPI (the per-DPI
page results are an input, as the loop consumes them), skip the DPI when it
produced zero images, otherwise OCR the images and compare the pass against
the best so far. -/
def ocrLoopStep (ocr : Nat → List OcrPage) (docId : Nat) (name ownerId : String)
    (best : OcrBest) (dpi : Nat) : OcrBest :=
  let pages := ocr dpi
  if pages.isEmpty then best
  else ocrConsider best dpi (ocrImagesToDocuments pages docId name ownerId) pages.length

/-- The OCR DPI loop of handleFileReady: fold the per-DPI step over the
configured DPI list starting from the initial best record. -/
def selectOcrBest (ocr : Nat → List OcrPage) (dpis : List Nat) (docId : Nat)
    (name ownerId : String) : OcrBest :=
  dpis.foldl (ocrLoopStep ocr docId name ownerId) ocrBestInit

/-- The best record the DPI loop stores when the pass at the given DPI wins
the comparison: its docs, text length, coerced mean confidence, the DPI and
the page count. -/
def mkOcrBest (ocr : Nat → List OcrPage) (docId : Nat) (name ownerId : String)
    (dpi : Nat) : OcrBest :=
  { docs := some (ocrImagesToDocuments (ocr dpi) docId name ownerId).docs
    textLen := ((ocrImagesToDocuments (ocr dpi) docId name ownerId).textLen : Int)
    meanConf := confOr0 (ocrImagesToDocuments (ocr dpi) docId name ownerId).meanConf
    dpi := some dpi
    pages := (ocr dpi).length }

/-- The baseDocs choice of handleFileReady steps 1 and 2: native extraction,
the shouldOCR decision, and, when OCR ran, the keep-or-discard rule of the
source: keep native when the best pass has no docs or its textLen is at most
zero, otherwise take the best pass docs.  Returns the chosen docs together
with the shouldOCR flag. -/
def chooseBaseDocs (cfg : OcrCfg) (ocr : Nat → List OcrPage) (docId : Nat)
    (recName recOwner : String) (nativePages : List NativePage) :
    List PageDoc × Bool :=
  let native := nativeBaseDocs docId recName recOwner nativePages
  let sOCR := shouldOCRB cfg (nativeTotalTextLen nativePages) native
  if sOCR then
    let best := selectOcrBest ocr cfg.dpis docId recName recOwner
    match best.docs with
    | none => (native, sOCR)
    | some ds => if best.textLen ≤ 0 then (native, sOCR) else (ds, sOCR)
  else (native, sOCR)

/-! ### Chunk plus index (server/services/indexer.js and the identical
chunkAndIndex in worker.js — src/unnamed/part_015) -/

/-- The points upserted into the vector index by one chunkAndIndex run: the
target collection and one (chunk, vector) point per chunk.  Vectors are
opaque integer lists. -/
structure IndexWrite where
  collection : String
  points : List (PageDoc × List Int)
deriving DecidableEq, Repr

/-- chunkAndIndex: split the base docs (the splitter is an external library,
passed as a function), fail with No chunks when splitting yields nothing,
embed all chunk texts in one batched call (the embedding service is passed
as a function returning either the vector list or a failure), fail hard on
an embedding count mismatch, otherwise upsert every chunk paired with its
vector and return the chunk count. -/
def chunkAndIndex (split : List PageDoc → List PageDoc)
    (embed : List String → Except String (List (List Int)))
    (baseDocs : List PageDoc) (collectionName : String) :
    Except String (IndexWrite × Nat) :=
  let chunks := split baseDocs
  if chunks.isEmpty then .error "No chunks created from document text"
  else
    let texts := chunks.map fun c => c.pageContent
    match embed texts with
    | .error e => .error e
    | .ok vectors =>
      if vectors.length ≠ chunks.length then
        .error ("Embedding count mismatch (" ++ toString vectors.length ++ " != " ++
          toString chunks.length ++ ")")
      else
        .ok ({ collection := collectionName, points := chunks.zip vectors }, chunks.length)

/-! ### Job payloads, results and worker progress events -/

/-- The file-ready job payload: docId and ownerId as enqueued by the upload
route; either field may be absent in a malformed payload. -/
structure IngestJob where
  docId : Option Nat
  ownerId : Option String
deriving DecidableEq, Repr

/-- The hard-delete job payload snapshot taken by the delete route. -/
structure HardDeleteJob where
  docId : Nat
  ownerId : String
  gridId : Nat
  collection : String
deriving DecidableEq, Repr

/-- A worker return payload as seen by the queue completed event.  All fields
are optional: file-ready returns ownerId, docId, ok, chunks, pages and
usedOCR, while hard-delete deliberately returns only deleted or skipped. -/
structure JobResult where
  ownerId : Option String := none
  docId : Option Nat := none
  ok : Option Bool := none
  chunks : Option Nat := none
  pages : Option Nat := none
  usedOCR : Option Bool := none
  deleted : Option Bool := none
  skipped : Option Bool := none
deriving DecidableEq, Repr

/-- One job.updateProgress emission from the worker. -/
structure ProgressEvent where
  ownerId : String
  docId : Nat
  status : Status
  pct : Nat
  stage : String
deriving DecidableEq, Repr

/-- The full observable outcome of one worker job handler run: the documents
collection afterwards, the progress events emitted, and the returned payload
or thrown error message. -/
structure Outcome where
  store : DocStore
  events : List ProgressEvent
  result : Except String JobResult

/-- The JavaScript fallback ownerIdFromJob or rec.ownerId: an absent or empty
job owner falls back to the owner stored on the row. -/
def jsOwnerFallback : Option String → String → String
  | none, r => r
  | some o, r => if o = "" then r else o

/-! ### handleFileReady (worker.js — src/unnamed/part_015) -/

/-- handleFileReady: load the row by id (Doc not found when absent), mark it
processing, extract native text, decide on OCR, run the OCR DPI loop and the
keep-or-discard rule, chunk and index, and finalize to ready with the page
count — or, when chunking or embedding fails, write status error with the
message onto the row (by id only) and rethrow.  External services (native
extraction, per-DPI OCR, splitter, embedder) are explicit arguments. -/
def handleFileReady (cfg : OcrCfg) (job : IngestJob)
    (nativePages : List NativePage) (ocr : Nat → List OcrPage)
    (split : List PageDoc → List PageDoc)
    (embed : List String → Except String (List (List Int)))
    (store : DocStore) : Outcome :=
  match job.docId with
  | none => { store := store, events := [], result := .error "job.data.docId missing" }
  | some docId =>
    match findById store docId with
    | none => { store := store, events := [], result := .error "Doc not found" }
    | some rec =>
      let ownerId := jsOwnerFallback job.ownerId rec.ownerId
      let store1 := updateById store docId fun d => { d with status := .processing }
      let bd := chooseBaseDocs cfg ocr docId rec.name rec.ownerId nativePages
      let ev0 : List ProgressEvent :=
        [⟨ownerId, docId, .processing, 5, "start"⟩,
         ⟨ownerId, docId, .processing, 10, "download"⟩,
         ⟨ownerId, docId, .processing, 30, "pdf-parse"⟩] ++
          (if bd.2 then [⟨ownerId, docId, .processing, 45, "ocr"⟩] else []) ++
          [⟨ownerId, docId, .processing, 70, "chunking"⟩]
      match chunkAndIndex split embed bd.1 (rec.collection.getD "") with
      | .error e =>
        { store := updateById store1 docId fun d => { d with status := .error, error := some e }
          events := ev0 ++ [⟨ownerId, docId, .error, 100, "failed"⟩]
          result := .error e }
      | .ok r =>
        { store := updateById store1 docId fun d =>
            { d with status := .ready, pages := some bd.1.length }
          events := ev0 ++ [⟨ownerId, docId, .processing, 90, "indexing"⟩]
          result := .ok { ownerId := some ownerId, docId := some docId, ok := some true,
                          chunks := some r.2, pages := some bd.1.length,
                          usedOCR := some bd.2 } }

/-! ### handleHardDelete (worker.js — src/unnamed/part_015) -/

/-- handleHardDelete: re-verify the row exists under the declared owner (skip
silently otherwise), best-effort drop the vector collection and the blob
(their success flags are inputs; failures only suppress the matching
progress emission), delete the row by id and owner, and return a minimal
payload that deliberately omits ownerId and docId. -/
def handleHardDelete (job : HardDeleteJob) (qdrantOk gridOk : Bool)
    (store : DocStore) : Outcome :=
  if job.ownerId = "" ∨ job.collection = "" then
    { store := store, events := []
      result := .error "hard-delete: missing required fields (docId, ownerId, gridId, collection)" }
  else
    match findByIdOwner store job.docId job.ownerId with
    | none => { store := store, events := [], result := .ok { skipped := some true } }
    | some _ =>
      let ev : List ProgressEvent :=
        [⟨job.ownerId, job.docId, .deleting, 10, "start"⟩] ++
          (if qdrantOk then [⟨job.ownerId, job.docId, .deleting, 50, "vectors"⟩] else []) ++
          (if gridOk then [⟨job.ownerId, job.docId, .deleting, 75, "blob"⟩] else []) ++
          [⟨job.ownerId, job.docId, .deleted, 100, "done"⟩]
      { store := deleteByIdOwner store job.docId job.ownerId
        events := ev
        result := .ok { deleted := some true } }

/-! ### Status relay (src/server/index.js, queue events to SSE plus persist) -/

/-- The payload of one queue progress event as read by the relay. -/
structure ProgressData where
  ownerId : Option String := none
  docId : Option Nat := none
  pct : Option Nat := none
  stage : Option String := none
  status : Option Status := none
deriving DecidableEq, Repr

/-- The kind of a live event pushed to subscribers. -/
inductive EvType where
  | progress
  | completed
  | failed
deriving DecidableEq, Repr

/-- One normalized live event pushed to the per-owner SSE channel. -/
structure LiveEvent where
  type : EvType
  docId : Nat
  status : Status
  pct : Option Nat := none
  stage : Option String := none
  pages : Option Nat := none
deriving DecidableEq, Repr

/-- The queue progress handler of the relay: when ownerId and docId are both
present (and the owner non-empty, the JavaScript falsy check), persist the
event status (default processing) with progress and stage onto the row
matching id and owner, then push a live progress event.  There is no check
of the stored status: the write is unconditional. -/
def progressHandler (now : Nat) (data : ProgressData) (store : DocStore) :
    DocStore × Option LiveEvent :=
  match data.ownerId, data.docId with
  | some o, some i =>
    if o = "" then (store, none)
    else
      let st := data.status.getD .processing
      (updateByIdOwner store i o fun d =>
        { d with status := st, updatedAt := some now,
                 progress := data.pct, stage := data.stage },
       some { type := .progress, docId := i, status := st,
              pct := data.pct, stage := data.stage })
  | _, _ => (store, none)

/-- The queue completed handler of the relay: when the return payload carries
both ownerId and docId, persist status ready onto the row matching id and
owner and push a live completed event; otherwise do nothing. -/
def completedHandler (now : Nat) (rv : Option JobResult) (store : DocStore) :
    DocStore × Option LiveEvent :=
  match rv with
  | none => (store, none)
  | some r =>
    match r.ownerId, r.docId with
    | some o, some i =>
      if o = "" then (store, none)
      else
        (updateByIdOwner store i o fun d => { d with status := .ready, updatedAt := some now },
         some { type := .completed, docId := i, status := .ready, pages := r.pages })
    | _, _ => (store, none)

/-! ### Reconciliation (server/routes/documents.js — src/unnamed/part_006) -/

/-- A Qdrant getCollection response: points_count when that field is a
number. -/
structure CollectionInfo where
  points_count : Option Int
deriving DecidableEq, Repr

/-- A Qdrant scroll response: the number of points returned when the points
field is an array. -/
structure ScrollResult where
  points : Option Nat
deriving DecidableEq, Repr

/-- The scroll fallback test of collectionHasAnyPoints: a failed scroll (none)
or a response without a points array yields false. -/
def scrollHasPoints : Option ScrollResult → Bool
  | none => false
  | some s =>
    match s.points with
    | none => false
    | some k => decide (k > 0)

/-- collectionHasAnyPoints: read collection info (none models a caught query
failure); when it exposes a numeric points_count, test it, otherwise fall
back to scrolling one point; every failure path returns false instead of
propagating an error. -/
def collectionHasAnyPoints (info : Option CollectionInfo) (sc : Option ScrollResult) : Bool :=
  match info with
  | some i =>
    match i.points_count with
    | some n => decide (n > 0)
    | none => scrollHasPoints sc
  | none => scrollHasPoints sc

/-- The stale filter of the GET documents auto-reconcile: status processing
or queued, a collection ref and a createdAt present, and more than 20000
milliseconds old. -/
def isStale (now : Nat) (d : Document) : Bool :=
  (d.status = Status.processing || d.status = Status.queued) &&
    decide (d.collection.getD "" ≠ "") && d.createdAt.isSome &&
    decide (now - d.createdAt.getD 0 > 20000)

/-- The repair applied to a stale document found to have points: status
ready and a fresh updatedAt. -/
def setReady (now : Nat) (d : Document) : Document :=
  { d with status := .ready, updatedAt := some now }

/-- The synthetic completed event pushed by a reconciliation repair. -/
def completedEventFor (i : Nat) : LiveEvent :=
  { type := .completed, docId := i, status := .ready }

/-- One stale document handled inside the auto-reconcile pass: query the
vector index for its collection and, on at least one point, set the row
(matched by id and owner) ready and push a synthetic completed event;
otherwise leave everything untouched. -/
def reconcileStep (hasPoints : String → Bool) (userId : String) (now : Nat)
    (acc : DocStore × List LiveEvent) (d : Document) : DocStore × List LiveEvent :=
  match d.collection with
  | some c =>
    if hasPoints c then
      (updateByIdOwner acc.1 d.id userId (setReady now), acc.2 ++ [completedEventFor d.id])
    else acc
  | none => acc

/-- The auto-reconcile pass of GET documents: filter the fetched page of
documents to the stale ones and repair each in turn. -/
def autoReconcile (hasPoints : String → Bool) (userId : String) (now : Nat)
    (docs : List Document) (store : DocStore) : DocStore × List LiveEvent :=
  (docs.filter (isStale now)).foldl (reconcileStep hasPoints userId now) (store, [])

/-- The response of the manual reconcile route. -/
inductive ReconcileResp where
  | notFound
  | ready
  | noVectors (status : Status)
deriving DecidableEq, Repr

/-- POST documents id reconcile: look the row up by id and owner, query the
vector index for its collection (false when it has none), and on at least
one point set it ready and push a synthetic completed event; otherwise
report no vectors with the current status. -/
def reconcileOne (hasPoints : String → Bool) (userId : String) (now : Nat)
    (docId : Nat) (store : DocStore) : DocStore × List LiveEvent × ReconcileResp :=
  match findByIdOwner store docId userId with
  | none => (store, [], .notFound)
  | some doc =>
    let ok :=
      match doc.collection with
      | some c => if c = "" then false else hasPoints c
      | none => false
    if ok then
      (updateByIdOwner store docId userId (setReady now), [completedEventFor docId], .ready)
    else
      (store, [], .noVectors doc.status)

/-! ### Job queue retry machinery -/

/-- Modelled from the spec: the Job Queue is the external BullMQ library;
only its configuration lives in this repository (attempts 3, exponential
backoff, in the worker options of src/unnamed/part_015).  Per the spec it
provides at-least-once delivery with retry and backoff: a failed job is
re-run while the attempts made stay below the configured attempts.  The
decision reads only the counters; the error value thrown by the handler
plays no part in it. -/
def bullRetries (attempts attemptsMade : Nat) (_err : String) : Bool :=
  decide (attemptsMade < attempts)

/-- The attempts count configured in the worker options of
src/unnamed/part_015. -/
def workerAttempts : Nat := 3

/-! ### Concrete fixtures used by witnesses and counterexamples -/

/-- A queued document owned by alice, used as a concrete store row. -/
def docAlice : Document :=
  { id := 1, ownerId := "alice", name := "f.pdf", status := .queued,
    collection := some "pdf_1", createdAt := some 0, gridId := 7 }

/-- A processing document owned by u, used for the relay scenarios. -/
def docRelay : Document :=
  { id := 1, ownerId := "u", status := .processing, collection := some "c" }

/-- A stale processing document owned by u, used for reconciliation. -/
def docStale : Document :=
  { id := 3, ownerId := "u", status := .processing, collection := some "pdf_3",
    createdAt := some 0 }

/-- A page of 1500 characters of native text, for the 3000-character two-page
upload scenario. -/
def scenPage : String := String.mk (List.replicate 1500 'a')

/-- The queued row behind the two-page scenario. -/
def docScen : Document :=
  { id := 5, ownerId := "u", name := "big.pdf", status := .queued,
    collection := some "pdf_5", createdAt := some 0 }

/-! ### Lemmas about the store operations -/

set_option maxRecDepth 10000

theorem findByIdOwner_updateByIdOwner_self (s : DocStore) (i : Nat) (o : String)
    (f : Document → Document)
    (hfid : ∀ x, (f x).id = x.id) (hfo : ∀ x, (f x).ownerId = x.ownerId) :
    findByIdOwner (updateByIdOwner s i o f) i o = (findByIdOwner s i o).map f := by
  induction s with
  | nil => rfl
  | cons d rest ih =>
    by_cases h : d.id = i ∧ d.ownerId = o
    · simp only [updateByIdOwner, if_pos h, findByIdOwner, hfid, hfo, if_pos h, Option.map_some']
    · simp only [updateByIdOwner, if_neg h, findByIdOwner, if_neg h, ih]

theorem findByIdOwner_updateByIdOwner_ne (s : DocStore) (i j : Nat) (o o' : String)
    (f : Document → Document) (hfid : ∀ x, (f x).id = x.id) (hne : j ≠ i) :
    findByIdOwner (updateByIdOwner s j o' f) i o = findByIdOwner s i o := by
  induction s with
  | nil => rfl
  | cons d rest ih =>
    by_cases h : d.id = j ∧ d.ownerId = o'
    · have hdid : d.id ≠ i := by rw [h.1]; exact hne
      have hfd : ¬((f d).id = i ∧ (f d).ownerId = o) := by
        intro hc
        have h1 := hc.1
        rw [hfid d] at h1
        exact hdid h1
      have hd2 : ¬(d.id = i ∧ d.ownerId = o) := fun hc => hdid hc.1
      rw [updateByIdOwner, if_pos h, findByIdOwner, if_neg hfd, findByIdOwner, if_neg hd2]
    · simp only [updateByIdOwner, if_neg h, findByIdOwner, ih]

theorem findById_updateById_self (s : DocStore) (i : Nat) (f : Document → Document)
    (hfid : ∀ x, (f x).id = x.id) :
    findById (updateById s i f) i = (findById s i).map f := by
  induction s with
  | nil => rfl
  | cons d rest ih =>
    by_cases h : d.id = i
    · simp only [updateById, if_pos h, findById, hfid, if_pos h, Option.map_some']
    · simp only [updateById, if_neg h, findById, if_neg h, ih]

theorem mem_updateByIdOwner (s : DocStore) (i : Nat) (o : String) (f : Document → Document)
    (r : Document) (hr : r ∈ updateByIdOwner s i o f) :
    r ∈ s ∨ ∃ x ∈ s, r = f x := by
  induction s with
  | nil => cases hr
  | cons d rest ih =>
    by_cases h : d.id = i ∧ d.ownerId = o
    · rw [updateByIdOwner, if_pos h] at hr
      rcases List.mem_cons.mp hr with h1 | h2
      · exact Or.inr ⟨d, List.mem_cons_self _ _, h1⟩
      · exact Or.inl (List.mem_cons_of_mem _ h2)
    · rw [updateByIdOwner, if_neg h] at hr
      rcases List.mem_cons.mp hr with h1 | h2
      · exact Or.inl (h1 ▸ List.mem_cons_self _ _)
      · rcases ih h2 with h3 | ⟨x, hx, hfx⟩
        · exact Or.inl (List.mem_cons_of_mem _ h3)
        · exact Or.inr ⟨x, List.mem_cons_of_mem _ hx, hfx⟩

theorem mem_deleteByIdOwner_of_ne_owner (s : DocStore) (i : Nat) (o : String)
    (r : Document) (hr : r ∈ s) (hno : r.ownerId ≠ o) :
    r ∈ deleteByIdOwner s i o := by
  induction s with
  | nil => cases hr
  | cons d rest ih =>
    by_cases h : d.id = i ∧ d.ownerId = o
    · rw [deleteByIdOwner, if_pos h]
      rcases List.mem_cons.mp hr with h1 | h2
      · exact absurd (h1 ▸ h.2) hno
      · exact h2
    · rw [deleteByIdOwner, if_neg h]
      rcases List.mem_cons.mp hr with h1 | h2
      · exact h1 ▸ List.mem_cons_self _ _
      · exact List.mem_cons_of_mem _ (ih h2)

/-! ### Helper lemmas for the reconciliation fold -/

theorem foldl_reconcileStep_false (hp : String → Bool) (h : ∀ c, hp c = false)
    (u : String) (now : Nat) :
    ∀ (l : List Document) (acc : DocStore × List LiveEvent),
      l.foldl (reconcileStep hp u now) acc = acc := by
  intro l
  induction l with
  | nil => intro acc; rfl
  | cons d rest ih =>
    intro acc
    rw [List.foldl_cons]
    have hstep : reconcileStep hp u now acc d = acc := by
      cases hc : d.collection with
      | none => simp [reconcileStep, hc]
      | some c => simp [reconcileStep, hc, h c]
    rw [hstep, ih]

/-! ### Claim theorems -/

/-- Claim C10: for every document examined by a reconciliation pass, if every
query to the Vector Index fails (collection info lookup and the scroll
fallback both error, modelled as both responses being absent), the point
check collectionHasAnyPoints returns false rather than propagating the
error; consequently a Vector Index outage never changes any document status
in the auto-reconcile pass or the manual reconcile route, and the
reconciling read still succeeds (both passes are total and return the store
unchanged with no events). -/
theorem C10_outage_returns_false :
    collectionHasAnyPoints none none = false ∧
    (∀ (userId : String) (now : Nat) (docs : List Document) (store : DocStore),
      autoReconcile (fun _ => collectionHasAnyPoints none none) userId now docs store
        = (store, [])) ∧
    (∀ (userId : String) (now docId : Nat) (store : DocStore),
      (reconcileOne (fun _ => collectionHasAnyPoints none none) userId now docId store).1
          = store ∧
      (reconcileOne (fun _ => collectionHasAnyPoints none none) userId now docId store).2.1
          = []) := by
  refine ⟨rfl, ?_, ?_⟩
  · intro userId now docs store
    unfold autoReconcile
    exact foldl_reconcileStep_false _ (fun c => rfl) _ _ _ _
  · intro userId now docId store
    cases hf : findByIdOwner store docId userId with
    | none => refine ⟨?_, ?_⟩ <;> simp [reconcileOne, hf]
    | some doc =>
      cases hc : doc.collection with
      | none => refine ⟨?_, ?_⟩ <;> simp [reconcileOne, hf, hc]
      | some c =>
        refine ⟨?_, ?_⟩ <;>
          simp [reconcileOne, hf, hc, collectionHasAnyPoints, scrollHasPoints]

/-- Claim C6: the Hard-Delete Worker success payload contains neither
ownerId nor docId, so the relay completed handler, which requires both,
neither persists status ready nor forwards a completed live event in
response to a hard-delete completion. -/
theorem C6_hard_delete_minimal_payload (job : HardDeleteJob) (qOk gOk : Bool)
    (store : DocStore) (rv : JobResult)
    (h : (handleHardDelete job qOk gOk store).result = .ok rv) :
    rv.ownerId = none ∧ rv.docId = none ∧
    (∀ (now : Nat) (s : DocStore), completedHandler now (some rv) s = (s, none)) := by
  unfold handleHardDelete at h
  by_cases hm : job.ownerId = "" ∨ job.collection = ""
  · rw [if_pos hm] at h
    have h2 : (Except.error
        "hard-delete: missing required fields (docId, ownerId, gridId, collection)" :
        Except String JobResult) = .ok rv := h
    exact Except.noConfusion h2
  · rw [if_neg hm] at h
    cases hf : findByIdOwner store job.docId job.ownerId with
    | none =>
      rw [hf] at h
      have h2 : (Except.ok ({ skipped := some true } : JobResult) :
          Except String JobResult) = .ok rv := h
      injection h2 with h3
      subst h3
      exact ⟨rfl, rfl, fun now s => rfl⟩
    | some d0 =>
      rw [hf] at h
      have h2 : (Except.ok ({ deleted := some true } : JobResult) :
          Except String JobResult) = .ok rv := h
      injection h2 with h3
      subst h3
      exact ⟨rfl, rfl, fun now s => rfl⟩

/-- Witness for C6 at a concrete input: a hard-delete job over a store
lacking the row returns only the skipped marker and the completed handler
does nothing with it. -/
theorem C6_witness :
    ({ skipped := some true } : JobResult).ownerId = none ∧
    ({ skipped := some true } : JobResult).docId = none ∧
    (∀ (now : Nat) (s : DocStore),
      completedHandler now (some { skipped := some true }) s = (s, none)) :=
  C6_hard_delete_minimal_payload
    { docId := 9, ownerId := "alice", gridId := 7, collection := "pdf_9" }
    true true [] _ rfl

/-- Claim C9: in every Chunk plus Index run all chunk texts are embedded in
one batched call (the run depends on the embedder only through its value on
the full list of chunk texts); a vector list whose length differs from the
chunk count is a hard EmbeddingMismatch error; on a matching length the
upserted points pair every chunk with its vector, with nothing truncated or
padded. -/
theorem C9_embedding_mismatch_hard :
    (∀ (split : List PageDoc → List PageDoc)
        (embed : List String → Except String (List (List Int)))
        (baseDocs : List PageDoc) (coll : String) (vs : List (List Int)),
      split baseDocs ≠ [] →
      embed ((split baseDocs).map fun c => c.pageContent) = .ok vs →
      vs.length ≠ (split baseDocs).length →
      chunkAndIndex split embed baseDocs coll =
        .error ("Embedding count mismatch (" ++ toString vs.length ++ " != " ++
          toString (split baseDocs).length ++ ")")) ∧
    (∀ (split : List PageDoc → List PageDoc)
        (embed : List String → Except String (List (List Int)))
        (baseDocs : List PageDoc) (coll : String) (vs : List (List Int)),
      split baseDocs ≠ [] →
      embed ((split baseDocs).map fun c => c.pageContent) = .ok vs →
      vs.length = (split baseDocs).length →
      chunkAndIndex split embed baseDocs coll =
        .ok ({ collection := coll, points := (split baseDocs).zip vs },
          (split baseDocs).length) ∧
      ((split baseDocs).zip vs).map Prod.fst = split baseDocs ∧
      ((split baseDocs).zip vs).map Prod.snd = vs) ∧
    (∀ (split : List PageDoc → List PageDoc)
        (e1 e2 : List String → Except String (List (List Int)))
        (baseDocs : List PageDoc) (coll : String),
      e1 ((split baseDocs).map fun c => c.pageContent) =
          e2 ((split baseDocs).map fun c => c.pageContent) →
      chunkAndIndex split e1 baseDocs coll = chunkAndIndex split e2 baseDocs coll) := by
  refine ⟨?_, ?_, ?_⟩
  · intro split embed baseDocs coll vs hne hemb hlen
    have hempty : (split baseDocs).isEmpty = false := by
      simp [List.isEmpty_iff, hne]
    simp [chunkAndIndex, hempty, hemb, hlen]
  · intro split embed baseDocs coll vs hne hemb hlen
    have hempty : (split baseDocs).isEmpty = false := by
      simp [List.isEmpty_iff, hne]
    refine ⟨by simp [chunkAndIndex, hempty, hemb, hlen], ?_, ?_⟩
    · exact List.map_fst_zip _ _ (le_of_eq hlen.symm)
    · exact List.map_snd_zip _ _ (le_of_eq hlen)
  · intro split e1 e2 baseDocs coll heq
    simp only [chunkAndIndex, heq]

/-- Witness for C9 at concrete inputs: one chunk, a two-vector response is a
mismatch error, a one-vector response indexes the single pair, and two
embedders agreeing on the batch give the same run. -/
theorem C9_witness :
    chunkAndIndex (fun l => l) (fun _ => .ok [[0], [1]])
        [{ pageContent := "abc", page := some 1, docId := 1, name := "n",
           ownerId := "u", ocr := false }] "pdf_1" =
      .error "Embedding count mismatch (2 != 1)" ∧
    chunkAndIndex (fun l => l) (fun _ => .ok [[0]])
        [{ pageContent := "abc", page := some 1, docId := 1, name := "n",
           ownerId := "u", ocr := false }] "pdf_1" =
      .ok ({ collection := "pdf_1",
             points := [({ pageContent := "abc", page := some 1, docId := 1, name := "n",
                           ownerId := "u", ocr := false }, [0])] }, 1) ∧
    chunkAndIndex (fun l => l) (fun _ => .ok [[7]])
        [{ pageContent := "abc", page := some 1, docId := 1, name := "n",
           ownerId := "u", ocr := false }] "pdf_1" =
      chunkAndIndex (fun l => l) (fun ts => .ok (ts.map fun _ => [7]))
        [{ pageContent := "abc", page := some 1, docId := 1, name := "n",
           ownerId := "u", ocr := false }] "pdf_1" := by
  refine ⟨?_, ?_, ?_⟩
  · exact (C9_embedding_mismatch_hard.1 (fun l => l) (fun _ => .ok [[0], [1]])
      [{ pageContent := "abc", page := some 1, docId := 1, name := "n",
         ownerId := "u", ocr := false }] "pdf_1" [[0], [1]]
      (by decide) rfl (by decide))
  · exact (C9_embedding_mismatch_hard.2.1 (fun l => l) (fun _ => .ok [[0]])
      [{ pageContent := "abc", page := some 1, docId := 1, name := "n",
         ownerId := "u", ocr := false }] "pdf_1" [[0]]
      (by decide) rfl (by decide)).1
  · exact C9_embedding_mismatch_hard.2.2 (fun l => l) (fun _ => .ok [[7]])
      (fun ts => .ok (ts.map fun _ => [7]))
      [{ pageContent := "abc", page := some 1, docId := 1, name := "n",
         ownerId := "u", ocr := false }] "pdf_1" rfl

/-- Claim C4 counterexample: after the relay handles a completed event for a
document (persisting ready), a later progress event for the same document
moves its persisted status back to processing — the relay does not treat
completed as terminal and does not ignore the late progress event. -/
theorem C4_counterexample :
    ((completedHandler 100
        (some { ownerId := some "u", docId := some 1, pages := some 2 })
        [docRelay]).1).map Document.status = [Status.ready] ∧
    ((progressHandler 200
        { ownerId := some "u", docId := some 1, pct := some 70,
          stage := some "chunking", status := some .processing }
        ((completedHandler 100
          (some { ownerId := some "u", docId := some 1, pages := some 2 })
          [docRelay]).1)).1).map Document.status = [Status.processing] := by
  exact ⟨rfl, rfl⟩

/-- Claim C4 as amended: the Status Relay does not treat completed or failed
as terminal; whenever a progress event carries a non-empty ownerId and a
docId matching a stored row, its persisted status is overwritten with the
event status (default processing) — including when the row is already ready
or error. -/
theorem C4_amended_progress_overwrites (now : Nat) (data : ProgressData)
    (store : DocStore) (o : String) (i : Nat) (doc : Document)
    (ho : data.ownerId = some o) (hoe : o ≠ "") (hi : data.docId = some i)
    (hdoc : findByIdOwner store i o = some doc) :
    findByIdOwner (progressHandler now data store).1 i o =
      some { doc with status := data.status.getD .processing, updatedAt := some now,
                      progress := data.pct, stage := data.stage } := by
  unfold progressHandler
  rw [ho, hi]
  simp only [if_neg hoe]
  rw [findByIdOwner_updateByIdOwner_self store i o
    (fun d => { d with status := data.status.getD Status.processing, updatedAt := some now,
                       progress := data.pct, stage := data.stage })
    (fun x => rfl) (fun x => rfl), hdoc]
  rfl

/-- Witness for C4 as amended: a progress event overwriting a ready row at
concrete values. -/
theorem C4_amended_witness :
    findByIdOwner
        (progressHandler 200
          { ownerId := some "u", docId := some 1, pct := some 70,
            stage := some "chunking", status := some .processing }
          [{ docRelay with status := .ready }]).1 1 "u" =
      some { docRelay with status := .processing, updatedAt := some 200,
                           progress := some 70, stage := some "chunking" } :=
  C4_amended_progress_overwrites 200
    { ownerId := some "u", docId := some 1, pct := some 70,
      stage := some "chunking", status := some .processing }
    [{ docRelay with status := .ready }] "u" 1 { docRelay with status := .ready }
    rfl (by decide) rfl (by decide)

/-- Claim C5 counterexample: a file-ready job whose docId has no row makes
the worker throw Doc not found, but the code gives that error no terminal
classification — under the configured attempts policy the queue retry
machinery still retries it after the first failure — and no status error is
written anywhere (the store is returned untouched). -/
theorem C5_counterexample :
    handleFileReady { enabled := true, dpis := [300], threshold := 800 }
        { docId := some 9, ownerId := some "alice" }
        [{ content := "hello world", page := some 1 }]
        (fun _ => []) (fun l => l) (fun _ => .ok []) [docAlice] =
      { store := [docAlice], events := [], result := .error "Doc not found" } ∧
    bullRetries workerAttempts 1 "Doc not found" = true := by
  exact ⟨rfl, rfl⟩

/-- Claim C5 as amended: a missing Document row makes the worker throw Doc
not found before any write or progress emission; this error carries no
terminal marking — the queue retry machinery decides from the attempt
counters alone, identically for every error value — and no status error is
written for it (there is no row to write); failures raised at the chunking
or embedding stage do write status error with the stringified cause onto
the row before the job fails out of the worker. -/
theorem C5_amended_notfound_behavior :
    (∀ (cfg : OcrCfg) (job : IngestJob) (docId : Nat) (native : List NativePage)
        (ocr : Nat → List OcrPage) (split : List PageDoc → List PageDoc)
        (embed : List String → Except String (List (List Int))) (store : DocStore),
      job.docId = some docId → findById store docId = none →
      handleFileReady cfg job native ocr split embed store =
        { store := store, events := [], result := .error "Doc not found" }) ∧
    (∀ (attempts made : Nat) (e1 e2 : String),
      bullRetries attempts made e1 = bullRetries attempts made e2) ∧
    (∀ (cfg : OcrCfg) (job : IngestJob) (docId : Nat) (rec : Document)
        (native : List NativePage) (ocr : Nat → List OcrPage)
        (split : List PageDoc → List PageDoc)
        (embed : List String → Except String (List (List Int))) (store : DocStore)
        (e : String),
      job.docId = some docId → findById store docId = some rec →
      chunkAndIndex split embed
          (chooseBaseDocs cfg ocr docId rec.name rec.ownerId native).1
          (rec.collection.getD "") = .error e →
      (handleFileReady cfg job native ocr split embed store).result = .error e ∧
      findById (handleFileReady cfg job native ocr split embed store).store docId =
        some { rec with status := .error, error := some e }) := by
  refine ⟨?_, ?_, ?_⟩
  · intro cfg job docId native ocr split embed store hjob hfind
    unfold handleFileReady
    rw [hjob]
    simp only [hfind]
  · intro attempts made e1 e2
    rfl
  · intro cfg job docId rec native ocr split embed store e hjob hfind hchunk
    unfold handleFileReady
    rw [hjob]
    simp only [hfind, hchunk]
    refine ⟨by trivial, ?_⟩
    rw [findById_updateById_self _ docId
      (fun d => { d with status := Status.error, error := some e }) (fun x => rfl)]
    rw [findById_updateById_self store docId
      (fun d => { d with status := Status.processing }) (fun x => rfl)]
    rw [hfind]
    rfl

/-- Witness for C5 as amended at concrete inputs: the missing-row run, the
error-blind retry decision, and a chunking failure writing status error. -/
theorem C5_amended_witness :
    handleFileReady { enabled := true, dpis := [300], threshold := 800 }
        { docId := some 9, ownerId := none }
        [{ content := "hello world", page := some 1 }]
        (fun _ => []) (fun l => l) (fun _ => .ok []) [] =
      { store := [], events := [], result := .error "Doc not found" } ∧
    bullRetries 3 1 "Doc not found" = bullRetries 3 1 "Embed failed 500" ∧
    findById
        (handleFileReady { enabled := false, dpis := [300], threshold := 800 }
          { docId := some 1, ownerId := none }
          [{ content := "text", page := some 1 }]
          (fun _ => []) (fun _ => []) (fun _ => .ok []) [docAlice]).store 1 =
      some { docAlice with status := .error,
                           error := some "No chunks created from document text" } := by
  refine ⟨?_, ?_, ?_⟩
  · exact C5_amended_notfound_behavior.1
      { enabled := true, dpis := [300], threshold := 800 }
      { docId := some 9, ownerId := none } 9
      [{ content := "hello world", page := some 1 }]
      (fun _ => []) (fun l => l) (fun _ => .ok []) [] rfl rfl
  · exact C5_amended_notfound_behavior.2.1 3 1 "Doc not found" "Embed failed 500"
  · exact (C5_amended_notfound_behavior.2.2
      { enabled := false, dpis := [300], threshold := 800 }
      { docId := some 1, ownerId := none } 1 docAlice
      [{ content := "text", page := some 1 }]
      (fun _ => []) (fun _ => []) (fun _ => .ok []) [docAlice]
      "No chunks created from document text" rfl rfl rfl).2

/-- Claim C2 counterexample: an ingest job declaring owner mallory mutates a
row owned by alice — the Ingestion Worker status writes filter by id only,
so a job whose declared owner differs from the row ownerId still mutates
that row (here all the way to status error on a chunking failure). -/
theorem C2_counterexample :
    (handleFileReady { enabled := false, dpis := [300], threshold := 800 }
        { docId := some 1, ownerId := some "mallory" }
        [{ content := "text", page := some 1 }]
        (fun _ => []) (fun _ => []) (fun _ => .ok []) [docAlice]).store =
      [{ docAlice with status := .error,
                       error := some "No chunks created from document text" }] ∧
    ("mallory" : String) ≠ docAlice.ownerId := by
  exact ⟨rfl, by decide⟩

/-- Claim C2 as amended: the Hard-Delete Worker honors the declared owner —
every row whose ownerId differs from the job owner survives a hard-delete
run untouched — but the Ingestion Worker does not: its Document writes
filter by id only, so the resulting store never depends on the owner the
ingest job declares, and a mismatched owner mutates the row all the same. -/
theorem C2_amended_owner_enforcement :
    (∀ (job : HardDeleteJob) (qOk gOk : Bool) (store : DocStore) (r : Document),
      r ∈ store → r.ownerId ≠ job.ownerId →
      r ∈ (handleHardDelete job qOk gOk store).store) ∧
    (∀ (cfg : OcrCfg) (docId : Nat) (o1 o2 : Option String)
        (native : List NativePage) (ocr : Nat → List OcrPage)
        (split : List PageDoc → List PageDoc)
        (embed : List String → Except String (List (List Int))) (store : DocStore),
      (handleFileReady cfg { docId := some docId, ownerId := o1 }
          native ocr split embed store).store =
        (handleFileReady cfg { docId := some docId, ownerId := o2 }
          native ocr split embed store).store) := by
  constructor
  · intro job qOk gOk store r hr hno
    unfold handleHardDelete
    by_cases hm : job.ownerId = "" ∨ job.collection = ""
    · rw [if_pos hm]; exact hr
    · rw [if_neg hm]
      cases hf : findByIdOwner store job.docId job.ownerId with
      | none => exact hr
      | some d0 =>
        exact mem_deleteByIdOwner_of_ne_owner store job.docId job.ownerId r hr hno
  · intro cfg docId o1 o2 native ocr split embed store
    cases hf : findById store docId with
    | none => simp [handleFileReady, hf]
    | some rec =>
      cases hc : chunkAndIndex split embed
          (chooseBaseDocs cfg ocr docId rec.name rec.ownerId native).1
          (rec.collection.getD "") with
      | error e => simp [handleFileReady, hf, hc]
      | ok r => simp [handleFileReady, hf, hc]

/-- Witness for C2 as amended at concrete inputs: a hard-delete job by bob
leaves the alice row in place, and two ingest jobs differing only in the
declared owner produce identical stores. -/
theorem C2_amended_witness :
    docAlice ∈ (handleHardDelete
        { docId := 1, ownerId := "bob", gridId := 7, collection := "pdf_1" }
        true true [docAlice]).store ∧
    (handleFileReady { enabled := false, dpis := [300], threshold := 800 }
        { docId := some 1, ownerId := some "mallory" }
        [{ content := "text", page := some 1 }]
        (fun _ => []) (fun l => l) (fun _ => .ok [[0]]) [docAlice]).store =
      (handleFileReady { enabled := false, dpis := [300], threshold := 800 }
        { docId := some 1, ownerId := some "alice" }
        [{ content := "text", page := some 1 }]
        (fun _ => []) (fun l => l) (fun _ => .ok [[0]]) [docAlice]).store := by
  constructor
  · exact C2_amended_owner_enforcement.1
      { docId := 1, ownerId := "bob", gridId := 7, collection := "pdf_1" }
      true true [docAlice] docAlice (by decide) (by decide)
  · exact C2_amended_owner_enforcement.2
      { enabled := false, dpis := [300], threshold := 800 } 1
      (some "mallory") (some "alice")
      [{ content := "text", page := some 1 }]
      (fun _ => []) (fun l => l) (fun _ => .ok [[0]]) [docAlice]

/-! ### Helper lemmas for the OCR decision and the DPI loop -/

theorem allBlank_nativeBaseDocs (i : Nat) (n o : String) (pages : List NativePage) :
    ((nativeBaseDocs i n o pages).all fun d => jsTrim d.pageContent = "") =
      pages.all fun c => jsTrim c.content = "" := by
  induction pages with
  | nil => rfl
  | cons p rest ih => simp [nativeBaseDocs, List.all_cons] at ih ⊢; rw [ih]

theorem shouldOCRB_nativeBaseDocs (cfg : OcrCfg) (t : Nat) (i i' : Nat)
    (n n' o o' : String) (pages : List NativePage) :
    shouldOCRB cfg t (nativeBaseDocs i n o pages) =
      shouldOCRB cfg t (nativeBaseDocs i' n' o' pages) := by
  simp only [shouldOCRB, allBlank_nativeBaseDocs]

theorem chooseBaseDocs_not_ocr (cfg : OcrCfg) (ocr : Nat → List OcrPage)
    (docId : Nat) (n o : String) (pages : List NativePage)
    (h : shouldOCRB cfg (nativeTotalTextLen pages) (nativeBaseDocs docId n o pages) = false) :
    chooseBaseDocs cfg ocr docId n o pages = (nativeBaseDocs docId n o pages, false) := by
  simp [chooseBaseDocs, h]

theorem chooseBaseDocs_snd (cfg : OcrCfg) (ocr : Nat → List OcrPage)
    (docId : Nat) (n o : String) (pages : List NativePage) :
    (chooseBaseDocs cfg ocr docId n o pages).2 =
      shouldOCRB cfg (nativeTotalTextLen pages) (nativeBaseDocs docId n o pages) := by
  cases hs : shouldOCRB cfg (nativeTotalTextLen pages) (nativeBaseDocs docId n o pages) with
  | false => simp [chooseBaseDocs, hs]
  | true =>
    cases hb : (selectOcrBest ocr cfg.dpis docId n o).docs with
    | none => simp [chooseBaseDocs, hs, hb]
    | some ds =>
      by_cases ht : (selectOcrBest ocr cfg.dpis docId n o).textLen ≤ 0 <;>
        simp [chooseBaseDocs, hs, hb, ht]

theorem ocrLoop_textLen_of_docs_none (ocr : Nat → List OcrPage) (docId : Nat)
    (n o : String) :
    ∀ (l : List Nat) (acc : OcrBest), (acc.docs = none → acc.textLen = -1) →
      ((l.foldl (ocrLoopStep ocr docId n o) acc).docs = none →
        (l.foldl (ocrLoopStep ocr docId n o) acc).textLen = -1) := by
  intro l
  induction l with
  | nil => intro acc h; exact h
  | cons dpi rest ih =>
    intro acc h
    rw [List.foldl_cons]
    apply ih
    intro hd
    by_cases hp : (ocr dpi).isEmpty
    · rw [ocrLoopStep, if_pos hp] at hd ⊢
      exact h hd
    · rw [ocrLoopStep, if_neg hp] at hd ⊢
      unfold ocrConsider at hd ⊢
      by_cases hb : (decide ((((ocrImagesToDocuments (ocr dpi) docId n o).textLen : Int)) >
            acc.textLen) ||
          (decide (((ocrImagesToDocuments (ocr dpi) docId n o).textLen : Int) = acc.textLen) &&
            decide (confOr0 (ocrImagesToDocuments (ocr dpi) docId n o).meanConf >
              acc.meanConf))) = true
      · simp only [hb, if_pos] at hd
        exact absurd hd (by simp)
      · simp only at hd ⊢
        rw [if_neg (by simp [hb])] at hd ⊢
        exact h hd

/-- Claim C1 counterexample: a run in which the best OCR pass is strictly
shorter than the native text still selects the OCR output.  Native text has
11 characters (below the 800 threshold, so OCR runs); the single OCR pass
recovers 2 characters; the pipeline keeps the OCR docs, so the chosen
source is shorter than the native extraction, contradicting both the
discard rule and the claimed length bound. -/
theorem C1_counterexample :
    chooseBaseDocs { enabled := true, dpis := [300], threshold := 800 }
        (fun _ => [{ text := "hi", conf := none }]) 1 "d" "alice"
        [{ content := "hello world", page := some 1 }] =
      ([{ pageContent := "hi", page := some 1, docId := 1, name := "d",
          ownerId := "alice", ocr := true }], true) ∧
    docsTextLen (chooseBaseDocs { enabled := true, dpis := [300], threshold := 800 }
        (fun _ => [{ text := "hi", conf := none }]) 1 "d" "alice"
        [{ content := "hello world", page := some 1 }]).1 <
      nativeTotalTextLen [{ content := "hello world", page := some 1 }] := by
  exact ⟨by decide, by decide⟩

/-- Claim C1 as amended: when OCR runs, the pipeline discards the OCR output
and keeps the native pages exactly when the best pass has no usable text
(textLen at most zero); whenever the best pass recovered any text at all its
docs are chosen — even when its text length does not exceed the native
totalTextLen.  OCR must produce usable text, not strictly more text than
native extraction, to be trusted. -/
theorem C1_amended_keep_rule (cfg : OcrCfg) (ocr : Nat → List OcrPage)
    (docId : Nat) (n o : String) (native : List NativePage)
    (hocr : shouldOCRB cfg (nativeTotalTextLen native) (nativeBaseDocs docId n o native)
      = true) :
    ((selectOcrBest ocr cfg.dpis docId n o).textLen ≤ 0 →
      (chooseBaseDocs cfg ocr docId n o native).1 = nativeBaseDocs docId n o native) ∧
    (0 < (selectOcrBest ocr cfg.dpis docId n o).textLen →
      ∃ ds, (selectOcrBest ocr cfg.dpis docId n o).docs = some ds ∧
        (chooseBaseDocs cfg ocr docId n o native).1 = ds) := by
  constructor
  · intro hle
    cases hb : (selectOcrBest ocr cfg.dpis docId n o).docs with
    | none => simp [chooseBaseDocs, hocr, hb]
    | some ds => simp [chooseBaseDocs, hocr, hb, if_pos hle]
  · intro hgt
    cases hb : (selectOcrBest ocr cfg.dpis docId n o).docs with
    | none =>
      have := ocrLoop_textLen_of_docs_none ocr docId n o cfg.dpis ocrBestInit
        (fun _ => rfl) hb
      rw [selectOcrBest] at hgt
      omega
    | some ds =>
      refine ⟨ds, rfl, ?_⟩
      have hnle : ¬(selectOcrBest ocr cfg.dpis docId n o).textLen ≤ 0 := by omega
      simp [chooseBaseDocs, hocr, hb, if_neg hnle]

/-- Witness for C1 as amended at concrete inputs: a failed OCR (zero pages at
every DPI) keeps native, and a successful pass is selected. -/
theorem C1_amended_witness :
    (chooseBaseDocs { enabled := true, dpis := [150], threshold := 800 }
        (fun _ => []) 2 "w" "bob" [{ content := "tiny", page := some 1 }]).1 =
      nativeBaseDocs 2 "w" "bob" [{ content := "tiny", page := some 1 }] ∧
    (∃ ds, (selectOcrBest (fun _ => [{ text := "recovered", conf := none }]) [150] 2 "w"
        "bob").docs = some ds ∧
      (chooseBaseDocs { enabled := true, dpis := [150], threshold := 800 }
        (fun _ => [{ text := "recovered", conf := none }]) 2 "w"
        "bob" [{ content := "tiny", page := some 1 }]).1 = ds) := by
  constructor
  · exact (C1_amended_keep_rule { enabled := true, dpis := [150], threshold := 800 }
      (fun _ => []) 2 "w" "bob" [{ content := "tiny", page := some 1 }] (by decide)).1
      (by decide)
  · exact (C1_amended_keep_rule { enabled := true, dpis := [150], threshold := 800 }
      (fun _ => [{ text := "recovered", conf := none }]) 2 "w" "bob"
      [{ content := "tiny", page := some 1 }] (by decide)).2 (by decide)

/-- Claim C7: the OCR fallback is invoked exactly when OCR is enabled AND
(the native totalTextLen is strictly below the threshold OR every native
page trims to whitespace): when the condition is false the run never
consults the OCR services at all (the outcome does not depend on them), and
every successful run reports usedOCR equal to that condition; the concrete
two-page 3000-character upload with threshold 800 finishes ready with
pageCount 2 and OCR never invoked. -/
theorem C7_ocr_trigger :
    (∀ (cfg : OcrCfg) (job : IngestJob) (native : List NativePage)
        (ocr1 ocr2 : Nat → List OcrPage) (split : List PageDoc → List PageDoc)
        (embed : List String → Except String (List (List Int))) (store : DocStore),
      shouldOCRB cfg (nativeTotalTextLen native) (nativeBaseDocs 0 "" "" native) = false →
      handleFileReady cfg job native ocr1 split embed store =
        handleFileReady cfg job native ocr2 split embed store) ∧
    (∀ (cfg : OcrCfg) (job : IngestJob) (native : List NativePage)
        (ocr : Nat → List OcrPage) (split : List PageDoc → List PageDoc)
        (embed : List String → Except String (List (List Int))) (store : DocStore)
        (rv : JobResult),
      (handleFileReady cfg job native ocr split embed store).result = .ok rv →
      rv.usedOCR =
        some (shouldOCRB cfg (nativeTotalTextLen native) (nativeBaseDocs 0 "" "" native))) ∧
    ((handleFileReady { enabled := true, dpis := [300], threshold := 800 }
        { docId := some 5, ownerId := some "u" }
        [{ content := scenPage, page := some 1 }, { content := scenPage, page := some 2 }]
        (fun _ => [{ text := "zz", conf := none }]) (fun l => l)
        (fun ts => .ok (ts.map fun _ => [0])) [docScen]).result =
      .ok { ownerId := some "u", docId := some 5, ok := some true, chunks := some 2,
            pages := some 2, usedOCR := some false } ∧
     findById (handleFileReady { enabled := true, dpis := [300], threshold := 800 }
        { docId := some 5, ownerId := some "u" }
        [{ content := scenPage, page := some 1 }, { content := scenPage, page := some 2 }]
        (fun _ => [{ text := "zz", conf := none }]) (fun l => l)
        (fun ts => .ok (ts.map fun _ => [0])) [docScen]).store 5 =
      some { docScen with status := .ready, pages := some 2 }) := by
  refine ⟨?_, ?_, rfl, rfl⟩
  · intro cfg job native ocr1 ocr2 split embed store h
    cases hd : job.docId with
    | none => simp [handleFileReady, hd]
    | some docId =>
      cases hf : findById store docId with
      | none => simp [handleFileReady, hd, hf]
      | some rec =>
        have h2 : shouldOCRB cfg (nativeTotalTextLen native)
            (nativeBaseDocs docId rec.name rec.ownerId native) = false :=
          (shouldOCRB_nativeBaseDocs cfg (nativeTotalTextLen native)
            docId 0 rec.name "" rec.ownerId "" native).trans h
        have hc1 := chooseBaseDocs_not_ocr cfg ocr1 docId rec.name rec.ownerId native h2
        have hc2 := chooseBaseDocs_not_ocr cfg ocr2 docId rec.name rec.ownerId native h2
        simp [handleFileReady, hd, hf, hc1, hc2]
  · intro cfg job native ocr split embed store rv h
    cases hd : job.docId with
    | none => simp [handleFileReady, hd] at h
    | some docId =>
      cases hf : findById store docId with
      | none => simp [handleFileReady, hd, hf] at h
      | some rec =>
        cases hc : chunkAndIndex split embed
            (chooseBaseDocs cfg ocr docId rec.name rec.ownerId native).1
            (rec.collection.getD "") with
        | error e => simp [handleFileReady, hd, hf, hc] at h
        | ok r =>
          simp only [handleFileReady, hd, hf, hc, Except.ok.injEq] at h
          rw [← h]
          simp only []
          rw [chooseBaseDocs_snd]
          rw [shouldOCRB_nativeBaseDocs cfg (nativeTotalTextLen native)
            docId 0 rec.name "" rec.ownerId "" native]

/-- Witness for C7 at concrete inputs: a disabled-OCR run is independent of
the OCR services, and the two-page scenario run reports usedOCR false. -/
theorem C7_witness :
    handleFileReady { enabled := false, dpis := [300], threshold := 800 }
        { docId := some 1, ownerId := none }
        [{ content := "text", page := some 1 }]
        (fun _ => [{ text := "a", conf := none }]) (fun l => l)
        (fun _ => .ok [[0]]) [docAlice] =
      handleFileReady { enabled := false, dpis := [300], threshold := 800 }
        { docId := some 1, ownerId := none }
        [{ content := "text", page := some 1 }]
        (fun _ => [{ text := "bbbb", conf := none }]) (fun l => l)
        (fun _ => .ok [[0]]) [docAlice] ∧
    ({ ownerId := some "u", docId := some 5, ok := some true, chunks := some 2,
       pages := some 2, usedOCR := some false } : JobResult).usedOCR =
      some (shouldOCRB { enabled := true, dpis := [300], threshold := 800 }
        (nativeTotalTextLen
          [{ content := scenPage, page := some 1 }, { content := scenPage, page := some 2 }])
        (nativeBaseDocs 0 "" ""
          [{ content := scenPage, page := some 1 }, { content := scenPage, page := some 2 }])) := by
  constructor
  · exact C7_ocr_trigger.1 { enabled := false, dpis := [300], threshold := 800 }
      { docId := some 1, ownerId := none }
      [{ content := "text", page := some 1 }]
      (fun _ => [{ text := "a", conf := none }]) (fun _ => [{ text := "bbbb", conf := none }])
      (fun l => l) (fun _ => .ok [[0]]) [docAlice] (by decide)
  · exact C7_ocr_trigger.2.1 { enabled := true, dpis := [300], threshold := 800 }
      { docId := some 5, ownerId := some "u" }
      [{ content := scenPage, page := some 1 }, { content := scenPage, page := some 2 }]
      (fun _ => [{ text := "zz", conf := none }]) (fun l => l)
      (fun ts => .ok (ts.map fun _ => [0])) [docScen] _ rfl

/-! ### The argmax property of the OCR DPI loop -/

theorem selectOcrBest_argmax (ocr : Nat → List OcrPage) (docId : Nat) (n o : String) :
    ∀ l : List Nat,
      ((∀ dp ∈ l, ocr dp = []) ∧
        l.foldl (ocrLoopStep ocr docId n o) ocrBestInit = ocrBestInit) ∨
      (∃ dp ∈ l, ocr dp ≠ [] ∧
        l.foldl (ocrLoopStep ocr docId n o) ocrBestInit = mkOcrBest ocr docId n o dp ∧
        ∀ dp2 ∈ l, ocr dp2 ≠ [] →
          (((ocrImagesToDocuments (ocr dp2) docId n o).textLen : Int) ≤
            (mkOcrBest ocr docId n o dp).textLen ∧
          ((((ocrImagesToDocuments (ocr dp2) docId n o).textLen : Int)) =
              (mkOcrBest ocr docId n o dp).textLen →
            confOr0 (ocrImagesToDocuments (ocr dp2) docId n o).meanConf ≤
              (mkOcrBest ocr docId n o dp).meanConf))) := by
  intro l
  induction l using List.reverseRecOn with
  | nil => exact Or.inl ⟨by simp, rfl⟩
  | append_singleton l x ih =>
    have hfold : (l ++ [x]).foldl (ocrLoopStep ocr docId n o) ocrBestInit =
        ocrLoopStep ocr docId n o (l.foldl (ocrLoopStep ocr docId n o) ocrBestInit) x := by
      rw [List.foldl_append, List.foldl_cons, List.foldl_nil]
    by_cases hx : ocr x = []
    · have hstep : ocrLoopStep ocr docId n o
          (l.foldl (ocrLoopStep ocr docId n o) ocrBestInit) x =
          l.foldl (ocrLoopStep ocr docId n o) ocrBestInit := by
        rw [ocrLoopStep]
        simp [hx]
      rcases ih with ⟨hall, heq⟩ | ⟨dp, hdp, hne, heq, hdom⟩
      · refine Or.inl ⟨?_, by rw [hfold, hstep, heq]⟩
        intro dp hdp
        rcases List.mem_append.mp hdp with h1 | h2
        · exact hall dp h1
        · rw [List.mem_singleton.mp h2]; exact hx
      · refine Or.inr ⟨dp, List.mem_append_left _ hdp, hne, by rw [hfold, hstep, heq], ?_⟩
        intro dp2 hdp2 hne2
        rcases List.mem_append.mp hdp2 with h1 | h2
        · exact hdom dp2 h1 hne2
        · rw [List.mem_singleton.mp h2] at hne2; exact absurd hx hne2
    · have hxe : (ocr x).isEmpty = false := by
        simp [List.isEmpty_iff, hx]
      have hstep : ocrLoopStep ocr docId n o
          (l.foldl (ocrLoopStep ocr docId n o) ocrBestInit) x =
          ocrConsider (l.foldl (ocrLoopStep ocr docId n o) ocrBestInit) x
            (ocrImagesToDocuments (ocr x) docId n o) (ocr x).length := by
        rw [ocrLoopStep]
        simp [hxe]
      rcases ih with ⟨hall, heq⟩ | ⟨dp, hdp, hne, heq, hdom⟩
      · -- every earlier DPI was empty: the first real pass always beats the init record
        have hbet : (decide (((ocrImagesToDocuments (ocr x) docId n o).textLen : Int) >
            ocrBestInit.textLen) ||
            (decide (((ocrImagesToDocuments (ocr x) docId n o).textLen : Int) =
              ocrBestInit.textLen) &&
              decide (confOr0 (ocrImagesToDocuments (ocr x) docId n o).meanConf >
                ocrBestInit.meanConf))) = true := by
          have h0 : ((ocrImagesToDocuments (ocr x) docId n o).textLen : Int) >
              ocrBestInit.textLen := by
            have : (0 : Int) ≤ ((ocrImagesToDocuments (ocr x) docId n o).textLen : Int) :=
              Int.ofNat_nonneg _
            simp only [ocrBestInit]
            omega
          simp [h0]
        refine Or.inr ⟨x, List.mem_append_right _ (List.mem_singleton.mpr rfl), hx, ?_, ?_⟩
        · rw [hfold, hstep, heq, ocrConsider, hbet]
          simp [mkOcrBest]
        · intro dp2 hdp2 hne2
          rcases List.mem_append.mp hdp2 with h1 | h2
          · exact absurd (hall dp2 h1) hne2
          · rw [List.mem_singleton.mp h2]
            exact ⟨le_refl _, fun _ => le_refl _⟩
      · -- a best pass exists for the earlier DPIs; compare the new pass against it
        cases hbet : (decide (((ocrImagesToDocuments (ocr x) docId n o).textLen : Int) >
            (mkOcrBest ocr docId n o dp).textLen) ||
            (decide (((ocrImagesToDocuments (ocr x) docId n o).textLen : Int) =
              (mkOcrBest ocr docId n o dp).textLen) &&
              decide (confOr0 (ocrImagesToDocuments (ocr x) docId n o).meanConf >
                (mkOcrBest ocr docId n o dp).meanConf))) with
        | true =>
          have hwin : ((ocrImagesToDocuments (ocr x) docId n o).textLen : Int) >
              (mkOcrBest ocr docId n o dp).textLen ∨
              (((ocrImagesToDocuments (ocr x) docId n o).textLen : Int) =
                (mkOcrBest ocr docId n o dp).textLen ∧
                confOr0 (ocrImagesToDocuments (ocr x) docId n o).meanConf >
                  (mkOcrBest ocr docId n o dp).meanConf) := by
            simpa using hbet
          refine Or.inr ⟨x, List.mem_append_right _ (List.mem_singleton.mpr rfl), hx, ?_, ?_⟩
          · rw [hfold, hstep, heq, ocrConsider]
            simp only [hbet, if_pos]
            simp [mkOcrBest]
          · intro dp2 hdp2 hne2
            rcases List.mem_append.mp hdp2 with h1 | h2
            · have hd2 := hdom dp2 h1 hne2
              constructor
              · rcases hwin with hw | ⟨hw1, _⟩
                · calc ((ocrImagesToDocuments (ocr dp2) docId n o).textLen : Int) ≤
                      (mkOcrBest ocr docId n o dp).textLen := hd2.1
                    _ ≤ (mkOcrBest ocr docId n o x).textLen := by
                      simp only [mkOcrBest] at hw ⊢
                      omega
                · have h1le := hd2.1
                  simp only [mkOcrBest] at hw1 h1le ⊢
                  omega
              · intro hties
                rcases hwin with hw | ⟨hw1, hw2⟩
                · exfalso
                  have h1le := hd2.1
                  simp only [mkOcrBest] at hw hties h1le
                  omega
                · have htie2 : ((ocrImagesToDocuments (ocr dp2) docId n o).textLen : Int) =
                      (mkOcrBest ocr docId n o dp).textLen := by
                    simp only [mkOcrBest] at hw1 hties ⊢
                    omega
                  have := hd2.2 htie2
                  have hle2 : confOr0 (ocrImagesToDocuments (ocr dp2) docId n o).meanConf ≤
                      (mkOcrBest ocr docId n o dp).meanConf := this
                  simp only [mkOcrBest] at hle2 hw2 ⊢
                  linarith
            · rw [List.mem_singleton.mp h2]
              exact ⟨le_refl _, fun _ => le_refl _⟩
        | false =>
          have hlose : ¬(((ocrImagesToDocuments (ocr x) docId n o).textLen : Int) >
              (mkOcrBest ocr docId n o dp).textLen) ∧
              (((ocrImagesToDocuments (ocr x) docId n o).textLen : Int) =
                (mkOcrBest ocr docId n o dp).textLen →
                ¬(confOr0 (ocrImagesToDocuments (ocr x) docId n o).meanConf >
                  (mkOcrBest ocr docId n o dp).meanConf)) := by
            have := hbet
            simp only [Bool.or_eq_false_iff, Bool.and_eq_false_iff,
              decide_eq_false_iff_not] at this
            rcases this with ⟨h1, h2⟩
            refine ⟨h1, ?_⟩
            intro heq2
            rcases h2 with h2a | h2b
            · exact absurd heq2 h2a
            · exact h2b
          refine Or.inr ⟨dp, List.mem_append_left _ hdp, hne, ?_, ?_⟩
          · rw [hfold, hstep, heq, ocrConsider]
            simp only [hbet]
            rfl
          · intro dp2 hdp2 hne2
            rcases List.mem_append.mp hdp2 with h1 | h2
            · exact hdom dp2 h1 hne2
            · rw [List.mem_singleton.mp h2]
              exact ⟨le_of_not_lt hlose.1, fun hties => le_of_not_lt (hlose.2 hties)⟩

/-- Claim C8: for every non-empty family of OCR passes over the configured
DPI candidates (some DPI rasterized at least one page), the best record the
loop selects is the pass of one attempted DPI whose passTextLen is greatest
among all attempted passes, and any pass tying on passTextLen has a mean
confidence no higher than the selected one. -/
theorem C8_best_pass_selection (ocr : Nat → List OcrPage) (dpis : List Nat)
    (docId : Nat) (n o : String) (hne : ∃ dp ∈ dpis, ocr dp ≠ []) :
    ∃ dp ∈ dpis, ocr dp ≠ [] ∧
      selectOcrBest ocr dpis docId n o = mkOcrBest ocr docId n o dp ∧
      ∀ dp2 ∈ dpis, ocr dp2 ≠ [] →
        (((ocrImagesToDocuments (ocr dp2) docId n o).textLen : Int) ≤
          (mkOcrBest ocr docId n o dp).textLen ∧
        ((((ocrImagesToDocuments (ocr dp2) docId n o).textLen : Int)) =
            (mkOcrBest ocr docId n o dp).textLen →
          confOr0 (ocrImagesToDocuments (ocr dp2) docId n o).meanConf ≤
            (mkOcrBest ocr docId n o dp).meanConf)) := by
  rcases selectOcrBest_argmax ocr docId n o dpis with ⟨hall, _⟩ | h
  · rcases hne with ⟨dp, hdp, hne2⟩
    exact absurd (hall dp hdp) hne2
  · exact h

/-- Witness for C8 at concrete inputs: two DPIs, the 150 pass recovers three
characters and the 300 pass two, so the 150 pass is selected and dominates
both passes. -/
theorem C8_witness :
    ∃ dp ∈ [150, 300],
      (fun d => if d = 150 then [({ text := "abc", conf := none } : OcrPage)]
        else [({ text := "de", conf := none } : OcrPage)]) dp ≠ [] ∧
      selectOcrBest
          (fun d => if d = 150 then [({ text := "abc", conf := none } : OcrPage)]
            else [({ text := "de", conf := none } : OcrPage)])
          [150, 300] 4 "w" "bob" =
        mkOcrBest
          (fun d => if d = 150 then [({ text := "abc", conf := none } : OcrPage)]
            else [({ text := "de", conf := none } : OcrPage)]) 4 "w" "bob" dp ∧
      ∀ dp2 ∈ [150, 300],
        (fun d => if d = 150 then [({ text := "abc", conf := none } : OcrPage)]
          else [({ text := "de", conf := none } : OcrPage)]) dp2 ≠ [] →
        (((ocrImagesToDocuments
            ((fun d => if d = 150 then [({ text := "abc", conf := none } : OcrPage)]
              else [({ text := "de", conf := none } : OcrPage)]) dp2) 4 "w" "bob").textLen :
              Int) ≤
          (mkOcrBest
            (fun d => if d = 150 then [({ text := "abc", conf := none } : OcrPage)]
              else [({ text := "de", conf := none } : OcrPage)]) 4 "w" "bob" dp).textLen ∧
        ((((ocrImagesToDocuments
            ((fun d => if d = 150 then [({ text := "abc", conf := none } : OcrPage)]
              else [({ text := "de", conf := none } : OcrPage)]) dp2) 4 "w" "bob").textLen :
              Int)) =
            (mkOcrBest
              (fun d => if d = 150 then [({ text := "abc", conf := none } : OcrPage)]
                else [({ text := "de", conf := none } : OcrPage)]) 4 "w" "bob" dp).textLen →
          confOr0 (ocrImagesToDocuments
            ((fun d => if d = 150 then [({ text := "abc", conf := none } : OcrPage)]
              else [({ text := "de", conf := none } : OcrPage)]) dp2) 4 "w" "bob").meanConf ≤
            (mkOcrBest
              (fun d => if d = 150 then [({ text := "abc", conf := none } : OcrPage)]
                else [({ text := "de", conf := none } : OcrPage)]) 4 "w" "bob" dp).meanConf)) :=
  C8_best_pass_selection
    (fun d => if d = 150 then [({ text := "abc", conf := none } : OcrPage)]
      else [({ text := "de", conf := none } : OcrPage)])
    [150, 300] 4 "w" "bob" ⟨150, by decide, by decide⟩

/-! ### Helper lemmas for the auto-reconcile fold -/

theorem setReady_idem (now : Nat) (r : Document) :
    setReady now (setReady now r) = setReady now r := rfl

theorem completedEventFor_inj {a b : Nat} (h : completedEventFor a = completedEventFor b) :
    a = b := by
  simpa [completedEventFor, LiveEvent.mk.injEq] using h

theorem reconcile_events_mono (hp : String → Bool) (u : String) (now : Nat) :
    ∀ (l : List Document) (acc : DocStore × List LiveEvent) (e : LiveEvent),
      e ∈ acc.2 → e ∈ (l.foldl (reconcileStep hp u now) acc).2 := by
  intro l
  induction l with
  | nil => intro acc e he; exact he
  | cons d0 rest ih =>
    intro acc e he
    rw [List.foldl_cons]
    apply ih
    cases hc : d0.collection with
    | none => simpa [reconcileStep, hc] using he
    | some c0 =>
      by_cases hpc : hp c0
      · simp [reconcileStep, hc, hpc, List.mem_append]
        exact Or.inl he
      · simpa [reconcileStep, hc, hpc] using he

theorem reconcile_store_pointwise (hp : String → Bool) (u : String) (now : Nat) :
    ∀ (l : List Document) (acc : DocStore × List LiveEvent) (r : Document),
      r ∈ (l.foldl (reconcileStep hp u now) acc).1 →
      r ∈ acc.1 ∨ ∃ rr ∈ acc.1, r = setReady now rr := by
  intro l
  induction l with
  | nil => intro acc r hr; exact Or.inl hr
  | cons d0 rest ih =>
    intro acc r hr
    rw [List.foldl_cons] at hr
    rcases ih (reconcileStep hp u now acc d0) r hr with h1 | ⟨rr, hrr, hset⟩
    · cases hc : d0.collection with
      | none =>
        rw [reconcileStep, hc] at h1
        exact Or.inl h1
      | some c0 =>
        by_cases hpc : hp c0
        · rw [reconcileStep, hc] at h1
          simp only [hpc, if_pos] at h1
          rcases mem_updateByIdOwner acc.1 d0.id u (setReady now) r h1 with h2 | ⟨x, hx, hfx⟩
          · exact Or.inl h2
          · exact Or.inr ⟨x, hx, hfx⟩
        · rw [reconcileStep, hc] at h1
          simp only [hpc] at h1
          exact Or.inl (by simpa using h1)
    · cases hc : d0.collection with
      | none =>
        rw [reconcileStep, hc] at hrr
        exact Or.inr ⟨rr, hrr, hset⟩
      | some c0 =>
        by_cases hpc : hp c0
        · rw [reconcileStep, hc] at hrr
          simp only [hpc, if_pos] at hrr
          rcases mem_updateByIdOwner acc.1 d0.id u (setReady now) rr hrr with h2 | ⟨x, hx, hfx⟩
          · exact Or.inr ⟨rr, h2, hset⟩
          · refine Or.inr ⟨x, hx, ?_⟩
            rw [hset, hfx, setReady_idem]
        · rw [reconcileStep, hc] at hrr
          simp only [hpc] at hrr
          exact Or.inr ⟨rr, by simpa using hrr, hset⟩

theorem reconcile_ready_preserved (hp : String → Bool) (u : String) (now : Nat)
    (d : Document) :
    ∀ (l : List Document) (acc : DocStore × List LiveEvent),
      findByIdOwner acc.1 d.id u = some (setReady now d) →
      findByIdOwner (l.foldl (reconcileStep hp u now) acc).1 d.id u =
        some (setReady now d) := by
  intro l
  induction l with
  | nil => intro acc h; exact h
  | cons d0 rest ih =>
    intro acc h
    rw [List.foldl_cons]
    apply ih
    cases hc : d0.collection with
    | none => simpa [reconcileStep, hc] using h
    | some c0 =>
      by_cases hpc : hp c0
      · simp only [reconcileStep, hc, hpc, if_pos]
        by_cases hid : d0.id = d.id
        · rw [hid]
          rw [findByIdOwner_updateByIdOwner_self acc.1 d.id u (setReady now)
            (fun x => rfl) (fun x => rfl), h]
          rw [Option.map_some', setReady_idem]
        · rw [findByIdOwner_updateByIdOwner_ne acc.1 d.id d0.id u u (setReady now)
            (fun x => rfl) hid]
          exact h
      · simpa [reconcileStep, hc, hpc] using h

theorem reconcile_repairs_stale (hp : String → Bool) (u : String) (now : Nat)
    (d : Document) (c : String) (hcol : d.collection = some c) (hpc : hp c = true) :
    ∀ (l : List Document) (acc : DocStore × List LiveEvent),
      d ∈ l → (∀ d2 ∈ l, d2.id = d.id → d2 = d) →
      findByIdOwner acc.1 d.id u = some d →
      findByIdOwner (l.foldl (reconcileStep hp u now) acc).1 d.id u =
          some (setReady now d) ∧
        completedEventFor d.id ∈ (l.foldl (reconcileStep hp u now) acc).2 := by
  intro l
  induction l with
  | nil => intro acc hd; cases hd
  | cons d0 rest ih =>
    intro acc hd hcons hfind
    rw [List.foldl_cons]
    by_cases hd0 : d0 = d
    · subst hd0
      have hstep : reconcileStep hp u now acc d0 =
          (updateByIdOwner acc.1 d0.id u (setReady now),
            acc.2 ++ [completedEventFor d0.id]) := by
        simp [reconcileStep, hcol, hpc]
      rw [hstep]
      constructor
      · apply reconcile_ready_preserved
        rw [findByIdOwner_updateByIdOwner_self acc.1 d0.id u (setReady now)
          (fun x => rfl) (fun x => rfl), hfind]
        rfl
      · apply reconcile_events_mono
        simp
    · have hd' : d ∈ rest := by
        rcases List.mem_cons.mp hd with h1 | h2
        · exact absurd h1.symm hd0
        · exact h2
      have hcons' : ∀ d2 ∈ rest, d2.id = d.id → d2 = d := fun d2 h2 =>
        hcons d2 (List.mem_cons_of_mem _ h2)
      have hfind' : findByIdOwner (reconcileStep hp u now acc d0).1 d.id u = some d := by
        cases hc0 : d0.collection with
        | none => simpa [reconcileStep, hc0] using hfind
        | some c0 =>
          by_cases hpc0 : hp c0
          · have hid : d0.id ≠ d.id := fun he =>
              hd0 (hcons d0 (List.mem_cons_self _ _) he)
            simp only [reconcileStep, hc0, hpc0, if_pos]
            rw [findByIdOwner_updateByIdOwner_ne acc.1 d.id d0.id u u (setReady now)
              (fun x => rfl) hid]
            exact hfind
          · simpa [reconcileStep, hc0, hpc0] using hfind
      exact ih (reconcileStep hp u now acc d0) hd' hcons' hfind'

theorem reconcile_skips_pointless (hp : String → Bool) (u : String) (now : Nat)
    (d : Document) (c : String) (hcol : d.collection = some c) (hpc : hp c = false) :
    ∀ (l : List Document) (acc : DocStore × List LiveEvent),
      (∀ d2 ∈ l, d2.id = d.id → d2 = d) →
      findByIdOwner (l.foldl (reconcileStep hp u now) acc).1 d.id u =
          findByIdOwner acc.1 d.id u ∧
        (completedEventFor d.id ∈ (l.foldl (reconcileStep hp u now) acc).2 →
          completedEventFor d.id ∈ acc.2) := by
  intro l
  induction l with
  | nil => intro acc hcons; exact ⟨rfl, fun h => h⟩
  | cons d0 rest ih =>
    intro acc hcons
    rw [List.foldl_cons]
    have hcons' : ∀ d2 ∈ rest, d2.id = d.id → d2 = d := fun d2 h2 =>
      hcons d2 (List.mem_cons_of_mem _ h2)
    cases hc0 : d0.collection with
    | none =>
      have hstep : reconcileStep hp u now acc d0 = acc := by simp [reconcileStep, hc0]
      rw [hstep]
      exact ih acc hcons'
    | some c0 =>
      by_cases hpc0 : hp c0
      · have hid : d0.id ≠ d.id := by
          intro he
          have hde := hcons d0 (List.mem_cons_self _ _) he
          subst hde
          rw [hcol] at hc0
          have hcc : c = c0 := by injection hc0
          subst hcc
          rw [hpc0] at hpc
          cases hpc
        have hstep : reconcileStep hp u now acc d0 =
            (updateByIdOwner acc.1 d0.id u (setReady now),
              acc.2 ++ [completedEventFor d0.id]) := by
          simp [reconcileStep, hc0, hpc0]
        rw [hstep]
        have hih := ih (updateByIdOwner acc.1 d0.id u (setReady now),
          acc.2 ++ [completedEventFor d0.id]) hcons'
        constructor
        · rw [hih.1]
          exact findByIdOwner_updateByIdOwner_ne acc.1 d.id d0.id u u (setReady now)
            (fun x => rfl) hid
        · intro hmem
          have h2 := hih.2 hmem
          rcases List.mem_append.mp h2 with h3 | h4
          · exact h3
          · exfalso
            have h5 := List.mem_singleton.mp h4
            exact hid (completedEventFor_inj h5).symm
      · have hstep : reconcileStep hp u now acc d0 = acc := by
          simp [reconcileStep, hc0, hpc0]
        rw [hstep]
        exact ih acc hcons'

/-- Claim C3: for every document of the fetched page in status queued or
processing, older than the 20 second staleness window (and with a collection
ref present), the auto-reconcile pass sets its status to ready and emits a
synthetic completed event exactly when the vector index reports at least one
point for its collection; with zero points the row and the event stream for
it are untouched; and neither the auto pass nor the manual reconcile route
ever sets any document status to error (every error row already was one). -/
theorem C3_reconciliation (hasPoints : String → Bool) (userId : String) (now : Nat)
    (docs : List Document) (store : DocStore) (d : Document) (c : String)
    (hdocs : ∀ d2 ∈ docs, findByIdOwner store d2.id userId = some d2)
    (hd : d ∈ docs) (hstale : isStale now d = true) (hcol : d.collection = some c) :
    (hasPoints c = true →
      findByIdOwner (autoReconcile hasPoints userId now docs store).1 d.id userId =
        some (setReady now d) ∧
      completedEventFor d.id ∈ (autoReconcile hasPoints userId now docs store).2) ∧
    (hasPoints c = false →
      findByIdOwner (autoReconcile hasPoints userId now docs store).1 d.id userId =
        some d ∧
      completedEventFor d.id ∉ (autoReconcile hasPoints userId now docs store).2) ∧
    (∀ r ∈ (autoReconcile hasPoints userId now docs store).1,
      r.status = .error → r ∈ store) ∧
    (∀ (docId : Nat) (r : Document),
      r ∈ (reconcileOne hasPoints userId now docId store).1 → r.status = .error →
      r ∈ store) := by
  have hdl : d ∈ docs.filter (isStale now) := List.mem_filter.mpr ⟨hd, hstale⟩
  have hcons : ∀ d2 ∈ docs.filter (isStale now), d2.id = d.id → d2 = d := by
    intro d2 h2 hid
    have h2d := (List.mem_filter.mp h2).1
    have hfd2 := hdocs d2 h2d
    have hfd := hdocs d hd
    rw [hid] at hfd2
    rw [hfd2] at hfd
    injection hfd
  have hfind : findByIdOwner store d.id userId = some d := hdocs d hd
  refine ⟨?_, ?_, ?_, ?_⟩
  · intro hpc
    exact reconcile_repairs_stale hasPoints userId now d c hcol hpc
      (docs.filter (isStale now)) (store, []) hdl hcons hfind
  · intro hpc
    have h := reconcile_skips_pointless hasPoints userId now d c hcol hpc
      (docs.filter (isStale now)) (store, []) hcons
    refine ⟨h.1.trans hfind, ?_⟩
    intro hmem
    have h2 := h.2 hmem
    cases h2
  · intro r hr hstatus
    rcases reconcile_store_pointwise hasPoints userId now
        (docs.filter (isStale now)) (store, []) r hr with h1 | ⟨rr, hrr, hset⟩
    · exact h1
    · exfalso
      rw [hset] at hstatus
      cases hstatus
  · intro docId r hr hstatus
    cases hf : findByIdOwner store docId userId with
    | none =>
      rw [reconcileOne, hf] at hr
      exact hr
    | some doc =>
      cases hc2 : doc.collection with
      | none =>
        rw [reconcileOne, hf] at hr
        simp only [hc2] at hr
        exact hr
      | some c2 =>
        by_cases hce : c2 = ""
        · rw [reconcileOne, hf] at hr
          simp only [hc2, hce] at hr
          exact (by simpa using hr)
        · by_cases hp2 : hasPoints c2
          · rw [reconcileOne, hf] at hr
            simp only [hc2, if_neg hce, hp2, if_pos] at hr
            rcases mem_updateByIdOwner store docId userId (setReady now) r hr with
              h1 | ⟨x, hx, hfx⟩
            · exact h1
            · exfalso
              rw [hfx] at hstatus
              cases hstatus
          · rw [reconcileOne, hf] at hr
            simp only [hc2, if_neg hce, hp2] at hr
            exact (by simpa using hr)

/-- Witness for C3 at concrete inputs: a stale processing row owned by u with
a collection holding points is repaired to ready and a synthetic completed
event is emitted. -/
theorem C3_witness :
    findByIdOwner
        (autoReconcile (fun _ => true) "u" 30000 [docStale] [docStale]).1 3 "u" =
      some (setReady 30000 docStale) ∧
    completedEventFor 3 ∈ (autoReconcile (fun _ => true) "u" 30000 [docStale] [docStale]).2 :=
  (C3_reconciliation (fun _ => true) "u" 30000 [docStale] [docStale] docStale "pdf_3"
    (by decide) (by decide) (by decide) rfl).1 rfl

end DocChat
